import Mathlib

/-!
# Verification development for the `storage` package (S3 client glue)

The package wraps an S3-compatible object store behind a handful of methods
(`UploadFile`, `CopyObject`, `GetObject`, `ListFiles`, `DeleteFiles`,
`DeleteFolder`).  The SDK and the remote service are not part of the package;
they appear here as a record of operations (`S3API`) the methods are written
against, and as one reference instance (`bucketAPI`) that keeps the bucket as a
finite map from keys to bytes.
-/

namespace storage

/-! ## Bytes and the `bytes` helpers used by the Build handler -/

/-- One octet. -/
abbrev Byte := Fin 256

/-- Go `[]byte`. -/
abbrev Bytes := List Byte

/-- The UTF-8 octets of a string, as `[]byte(s)` yields them. -/
def toBytes (s : String) : Bytes :=
  s.data.flatMap fun c => (String.utf8EncodeChar c).map fun b => b.val

namespace bytes

/-- Go `bytes.Index(s, sep)`: the index of the first instance of `sep` in `s`;
`none` stands for `-1`. -/
def Index (s sep : Bytes) : Option Nat :=
  match s with
  | [] => if sep.isPrefixOf [] then some 0 else none
  | c :: cs =>
    if sep.isPrefixOf (c :: cs) then some 0
    else (Index cs sep).map fun i => i + 1

/-- The loop of Go `bytes.Count` for a non-empty separator:
`for { i := Index(s, sep); if i == -1 { return n }; n++; s = s[i+len(sep):] }`.
The first argument bounds the number of iterations. -/
def countLoop (sep : Bytes) : Nat → Bytes → Nat → Nat
  | 0, _, n => n
  | fuel + 1, s, n =>
    match Index s sep with
    | none => n
    | some i => countLoop sep fuel (s.drop (i + sep.length)) (n + 1)

/-- Go `bytes.Count(s, sep)` for a non-empty `sep`: the number of
non-overlapping instances of `sep` in `s`.  (For an empty `sep` Go counts
UTF-8 sequences; that case is not used by this package and yields `0` here.) -/
def Count (s sep : Bytes) : Nat :=
  if sep = [] then 0 else countLoop sep (s.length + 1) s 0

/-- The replacement loop of Go `bytes.Replace`:
`for i := 0; i < n; i++ { j := start + Index(s[start:], old); t += s[start:j]; t += new; start = j + len(old) }`
followed by `t += s[start:]`.  The first argument is the number of iterations
left.  The loop runs `Count(s, old)` times, so `Index` finds an instance in
every iteration; the `none` branch only closes the match. -/
def replaceLoop (s old new : Bytes) : Nat → Nat → Bytes → Bytes
  | 0, start, t => t ++ s.drop start
  | n + 1, start, t =>
    match Index (s.drop start) old with
    | some k =>
      replaceLoop s old new n (start + k + old.length) (t ++ (s.drop start).take k ++ new)
    | none => t ++ s.drop start

/-- Go `bytes.Replace(s, old, new, n)` for a non-empty `old`: a copy of `s` with
the first `n` non-overlapping instances of `old` replaced by `new`; no limit
when `n < 0`. -/
def Replace (s old new : Bytes) (n : Int) : Bytes :=
  let m := if n ≠ 0 then Count s old else 0
  if m = 0 then s
  else
    let n' := if n < 0 ∨ (m : Int) < n then m else n.toNat
    replaceLoop s old new n' 0 []

end bytes

/-- The attribute the Build handler removes,
`[]byte(" xmlns=\"http://s3.amazonaws.com/doc/2006-03-01/\"")`. -/
def xmlnsAttr : Bytes :=
  toBytes " xmlns=\"http://s3.amazonaws.com/doc/2006-03-01/\""

/-! ## Values exchanged with the SDK -/

deriving instance DecidableEq for Except

/-- Go `aws.String(v)`: a non-nil pointer to `v`.  A `*string` is an
`Option String`, `none` being the nil pointer. -/
def awsString (v : String) : Option String := some v

/-- An error the SDK hands back. -/
inductive SdkError where
  /-- A value implementing `awserr.Error`, with its `Code()` and `Message()`. -/
  | awserr (code message : String)
  /-- Any error that does not implement `awserr.Error`. -/
  | plain (text : String)
  deriving DecidableEq, Repr

/-- Go `aerr, ok := err.(awserr.Error)` followed by `aerr.Code()`: the code of a
service error, `none` when the assertion fails. -/
def SdkError.Code : SdkError → Option String
  | .awserr code _ => some code
  | .plain _ => none

/-- A non-nil Go `error` as the methods of this package return it: the package's
own `NoSuchKeyError` value, or an error of the SDK passed through. -/
inductive Error where
  /-- The one value made by `errors.New("no such key")`. -/
  | errorString
  /-- An error received from the SDK, returned as it came. -/
  | sdk (err : SdkError)
  deriving DecidableEq, Repr

/-- Go `var NoSuchKeyError = errors.New("no such key")`. -/
def NoSuchKeyError : Error := Error.errorString

/-- Go `s3.ErrCodeNoSuchKey`. -/
def ErrCodeNoSuchKey : String := "NoSuchKey"

/-- Go `const imageContentType = "image/jpeg"`. -/
def imageContentType : String := "image/jpeg"

/-- Go `Config`. -/
structure Config where
  S3Bucket : String
  S3Region : String
  S3Endpoint : String
  S3AccessKeyID : String
  S3SecretAccessKey : String
  deriving DecidableEq, Repr

/-- Go `s3.ObjectIdentifier`; `ObjectID` is a pointer to one. -/
structure ObjectID where
  Key : Option String
  VersionId : Option String
  deriving DecidableEq, Repr

/-- Go `s3.Object`, an entry of a listing (the field this package reads). -/
structure Object where
  Key : Option String
  deriving DecidableEq, Repr

/-- Go `context.Context`, as far as an upload looks at it: whether it has been
cancelled. -/
structure Context where
  cancelled : Bool
  deriving DecidableEq, Repr

/-- Go `s3manager.UploadInput` (the fields this package sets).  `Body` is the
sequence of bytes the `io.Reader` yields. -/
structure UploadInput where
  Bucket : Option String
  Body : Bytes
  Key : Option String
  ACL : Option String
  ContentType : Option String
  deriving DecidableEq, Repr

/-- Go `s3manager.UploadOutput`. -/
structure UploadOutput where
  Location : String
  deriving DecidableEq, Repr

/-- Go `s3.CopyObjectInput` (the fields this package sets). -/
structure CopyObjectInput where
  CopySource : Option String
  Key : Option String
  ACL : Option String
  Bucket : Option String
  deriving DecidableEq, Repr

/-- Go `s3.GetObjectInput` (the fields this package sets). -/
structure GetObjectInput where
  Bucket : Option String
  Key : Option String
  deriving DecidableEq, Repr

/-- An `io.ReadCloser` over a response body: the bytes it yields and the error
that ends the stream, if any. -/
structure ReadCloser where
  data : Bytes
  err : Option SdkError
  deriving DecidableEq, Repr

/-- Go `s3.GetObjectOutput` (the field this package reads). -/
structure GetObjectOutput where
  Body : ReadCloser
  deriving DecidableEq, Repr

/-- Go `s3.ListObjectsInput` (the fields this package sets; `Marker`, `MaxKeys`
and `Delimiter` stay unset). -/
structure ListObjectsInput where
  Bucket : Option String
  Prefix : Option String
  deriving DecidableEq, Repr

/-- Go `s3.ListObjectsOutput` (`Contents` is read by this package, `IsTruncated`
is not). -/
structure ListObjectsOutput where
  Contents : List Object
  IsTruncated : Bool
  deriving DecidableEq, Repr

/-- Go `s3.Delete`; `Objects` is a slice, `none` being the nil slice. -/
structure Delete where
  Objects : Option (List ObjectID)
  deriving DecidableEq, Repr

/-- Go `s3.DeleteObjectsInput` (the fields this package sets). -/
structure DeleteObjectsInput where
  Bucket : Option String
  Delete : Option Delete
  deriving DecidableEq, Repr

/-- Go `request.Operation`. -/
structure Operation where
  Name : String
  deriving DecidableEq, Repr

/-- Go `request.Request`, as a Build handler sees it: the operation, the
parameters (of a type `π` that depends on the operation) and the serialised
body (an in-memory reader). -/
structure Request (π : Type) where
  Operation : Operation
  Params : π
  Body : Bytes
  deriving DecidableEq, Repr

/-- Go `buf.ReadFrom(r.Body)` on a fresh buffer: the bytes read and the error.
The body of a built request is held in memory, so the read yields all of it. -/
def ReadFrom (body : Bytes) : Bytes × Option SdkError := (body, none)

/-- Go `r.SetReaderBody(bytes.NewReader(updated))`. -/
def Request.SetReaderBody {π : Type} (r : Request π) (updated : Bytes) : Request π :=
  { r with Body := updated }

/-- The function `DeleteFiles` pushes onto the Build handlers of its client. -/
def buildHandler {π : Type} (r : Request π) : Request π :=
  if r.Operation.Name = "DeleteObjects" then
    match ReadFrom r.Body with
    | (buf, none) =>
      let updated := bytes.Replace buf xmlnsAttr (toBytes "") (-1)
      r.SetReaderBody updated
    | (_, some _) => r
  else r

/-- A copy of `s` without the instances of `pat` a left-to-right scan meets:
when `pat` starts at the current byte it is skipped whole and the scan goes on
behind it, otherwise the byte is kept.  The first argument counts the bytes of
the instance still to skip.  (Stated for a non-empty `pat`.) -/
def deleteOccurrences (pat : Bytes) : Nat → Bytes → Bytes
  | _, [] => []
  | skip + 1, _ :: cs => deleteOccurrences pat skip cs
  | 0, c :: cs =>
    if pat.isPrefixOf (c :: cs) then deleteOccurrences pat (pat.length - 1) cs
    else c :: deleteOccurrences pat 0 cs

/-! ## The SDK client and the methods of `S3Context` -/

/-- Modelled from the spec: the escaping the SDK's XML encoder applies to the
text of an element (Go `xml.EscapeText`), for one byte: the double quote, the
apostrophe, `&`, `<`, `>`, tab, line feed and carriage return are written as
character references, every other byte as it is. -/
def escapeByte (c : Byte) : Bytes :=
  if c = 34 then toBytes "&#34;"
  else if c = 39 then toBytes "&#39;"
  else if c = 38 then toBytes "&amp;"
  else if c = 60 then toBytes "&lt;"
  else if c = 62 then toBytes "&gt;"
  else if c = 9 then toBytes "&#x9;"
  else if c = 10 then toBytes "&#xA;"
  else if c = 13 then toBytes "&#xD;"
  else [c]

/-- Modelled from the spec: the text of an element as the SDK's XML encoder
writes it. -/
def escapeText (s : String) : Bytes :=
  (toBytes s).flatMap escapeByte

/-- Modelled from the spec: the `Object` element the SDK serialises for one
identifier, with the members that are set. -/
def objectElement (o : ObjectID) : Bytes :=
  toBytes "<Object>"
    ++ (match o.Key with
        | some k => toBytes "<Key>" ++ escapeText k ++ toBytes "</Key>"
        | none => [])
    ++ (match o.VersionId with
        | some v => toBytes "<VersionId>" ++ escapeText v ++ toBytes "</VersionId>"
        | none => [])
    ++ toBytes "</Object>"

/-- Modelled from the spec: what follows the namespace attribute in the body the
SDK serialises for a `DeleteObjects` call: the end of the root start tag, one
`Object` element per identifier, the root end tag. -/
def deleteElements (input : DeleteObjectsInput) : Bytes :=
  toBytes ">"
    ++ ((input.Delete.bind fun d => d.Objects).getD []).flatMap objectElement
    ++ toBytes "</Delete>"

/-- Modelled from the spec: the body the SDK's own Build handler serialises for
a `DeleteObjects` call, `<Delete xmlns="http://s3.amazonaws.com/doc/2006-03-01/">`
followed by the elements: the root element carries the namespace attribute. -/
def deleteBody (input : DeleteObjectsInput) : Bytes :=
  toBytes "<Delete" ++ (xmlnsAttr ++ deleteElements input)

/-- What the package asks of the SDK and the service behind it, over a backend
state `σ`.  A call answers with an output or an error; the calls that write
also give the next state, the two reads (`GetObject`, `ListObjects`) leave the
state as it is.  A `DeleteObjects` call is made in two steps, as in the SDK:
the SDK's own Build handler serialises the parameters into the request body
(`deleteBody`), `Send` puts the built request on the wire. -/
structure S3API (σ : Type) where
  Upload : UploadInput → σ → Except SdkError UploadOutput × σ
  UploadWithContext : Context → UploadInput → σ → Except SdkError UploadOutput × σ
  CopyObject : CopyObjectInput → σ → Except SdkError Unit × σ
  GetObject : GetObjectInput → σ → Except SdkError GetObjectOutput
  ListObjects : ListObjectsInput → σ → Except SdkError ListObjectsOutput
  Send : Request DeleteObjectsInput → σ → Except SdkError Unit × σ

/-- A call made on the SDK client, with what was passed. -/
inductive Call where
  | Upload (input : UploadInput)
  | UploadWithContext (cctx : Context) (input : UploadInput)
  | CopyObject (input : CopyObjectInput)
  | GetObject (input : GetObjectInput)
  | ListObjects (input : ListObjectsInput)
  /-- A `DeleteObjects` request as sent, after the Build handlers ran. -/
  | DeleteObjects (r : Request DeleteObjectsInput)
  deriving DecidableEq, Repr

/-- Whether a call is a batch deletion. -/
def Call.isDeleteObjects : Call → Bool
  | .DeleteObjects _ => true
  | _ => false

/-- The backend together with the calls made on it so far, oldest first. -/
structure World (σ : Type) where
  backend : σ
  sent : List Call
  deriving DecidableEq, Repr

/-- Go `S3Context`.  The session stands for the clients made from it
(`s3.New(ctx.session)`, `s3manager.NewUploader(ctx.session)`). -/
structure S3Context (σ : Type) where
  session : S3API σ
  config : Config

variable {σ : Type}

/-- Go `ioutil.ReadAll(r)`: the bytes read (a non-nil slice) and the error that
stopped the read, if any. -/
def ReadAll (r : ReadCloser) : Option Bytes × Option Error :=
  (some r.data, r.err.map Error.sdk)

/-- Go `manager.Upload(input)`. -/
def World.Upload (api : S3API σ) (input : UploadInput) (w : World σ) :
    Except SdkError UploadOutput × World σ :=
  let r := api.Upload input w.backend
  (r.1, { backend := r.2, sent := w.sent ++ [Call.Upload input] })

/-- Go `manager.UploadWithContext(cctx, input)`. -/
def World.UploadWithContext (api : S3API σ) (cctx : Context) (input : UploadInput)
    (w : World σ) : Except SdkError UploadOutput × World σ :=
  let r := api.UploadWithContext cctx input w.backend
  (r.1, { backend := r.2, sent := w.sent ++ [Call.UploadWithContext cctx input] })

/-- Go `service.CopyObject(input)`. -/
def World.CopyObject (api : S3API σ) (input : CopyObjectInput) (w : World σ) :
    Except SdkError Unit × World σ :=
  let r := api.CopyObject input w.backend
  (r.1, { backend := r.2, sent := w.sent ++ [Call.CopyObject input] })

/-- Go `service.GetObject(input)`. -/
def World.GetObject (api : S3API σ) (input : GetObjectInput) (w : World σ) :
    Except SdkError GetObjectOutput × World σ :=
  (api.GetObject input w.backend, { w with sent := w.sent ++ [Call.GetObject input] })

/-- Go `svc.ListObjects(input)`. -/
def World.ListObjects (api : S3API σ) (input : ListObjectsInput) (w : World σ) :
    Except SdkError ListObjectsOutput × World σ :=
  (api.ListObjects input w.backend, { w with sent := w.sent ++ [Call.ListObjects input] })

/-- Go `svc.DeleteObjects(input)` on a client whose Build handlers end with
`pushed`: the SDK builds the request (operation name `DeleteObjects`, body
serialised from the parameters), runs the pushed handler on it and sends it. -/
def World.DeleteObjects (api : S3API σ)
    (pushed : Request DeleteObjectsInput → Request DeleteObjectsInput)
    (input : DeleteObjectsInput) (w : World σ) : Except SdkError Unit × World σ :=
  let built : Request DeleteObjectsInput :=
    { Operation := { Name := "DeleteObjects" }, Params := input, Body := deleteBody input }
  let req := pushed built
  let r := api.Send req w.backend
  (r.1, { backend := r.2, sent := w.sent ++ [Call.DeleteObjects req] })

/-- Go `(*S3Context).UploadFile`. -/
def S3Context.UploadFile (ctx : S3Context σ) (file : Bytes) (objectKey contentType : String)
    (w : World σ) : (String × Option Error) × World σ :=
  let r := w.Upload ctx.session
    { Bucket := awsString ctx.config.S3Bucket
      Body := file
      Key := awsString objectKey
      ACL := awsString "public-read"
      ContentType := awsString contentType }
  match r.1 with
  | .error err => (("", some (Error.sdk err)), r.2)
  | .ok out => ((out.Location, none), r.2)

/-- Go `(*S3Context).UploadImageFile`. -/
def S3Context.UploadImageFile (ctx : S3Context σ) (file : Bytes) (objectKey : String)
    (w : World σ) : (String × Option Error) × World σ :=
  ctx.UploadFile file objectKey imageContentType w

/-- Go `(*S3Context).CopyObject`. -/
def S3Context.CopyObject (ctx : S3Context σ) (source dest : String) (w : World σ) :
    Option Error × World σ :=
  let r := w.CopyObject ctx.session
    { CopySource := awsString (ctx.config.S3Bucket ++ "/" ++ source)
      Key := awsString dest
      ACL := awsString "public-read"
      Bucket := awsString ctx.config.S3Bucket }
  match r.1 with
  | .error err => (some (Error.sdk err), r.2)
  | .ok _ => (none, r.2)

/-- Go `(*S3Context).GetObject`.  The body is a slice, `none` being nil. -/
def S3Context.GetObject (ctx : S3Context σ) (objectKey : String) (w : World σ) :
    (Option Bytes × Option Error) × World σ :=
  let r := w.GetObject ctx.session
    { Bucket := awsString ctx.config.S3Bucket
      Key := awsString objectKey }
  match r.1 with
  | .error err =>
    match err.Code with
    | some code =>
      if code = ErrCodeNoSuchKey then ((none, some NoSuchKeyError), r.2)
      else ((none, some (Error.sdk err)), r.2)
    | none => ((none, some (Error.sdk err)), r.2)
  | .ok object => (ReadAll object.Body, r.2)

/-- Go `(*S3Context).ListFiles`.  The result is a slice, `none` being nil. -/
def S3Context.ListFiles (ctx : S3Context σ) (pfx : String) (w : World σ) :
    (Option (List ObjectID) × Option Error) × World σ :=
  let r := w.ListObjects ctx.session
    { Bucket := awsString ctx.config.S3Bucket
      Prefix := awsString pfx }
  match r.1 with
  | .error err => ((none, some (Error.sdk err)), r.2)
  | .ok objects =>
    let obIdentifiers : List ObjectID :=
      objects.Contents.map fun obj => { Key := obj.Key, VersionId := none }
    ((some obIdentifiers, none), r.2)

/-- Go `(*S3Context).DeleteFiles`. -/
def S3Context.DeleteFiles (ctx : S3Context σ) (obIdentifiers : Option (List ObjectID))
    (w : World σ) : Option Error × World σ :=
  let r := w.DeleteObjects ctx.session buildHandler
    { Bucket := awsString ctx.config.S3Bucket
      Delete := some { Objects := obIdentifiers } }
  match r.1 with
  | .error err => (some (Error.sdk err), r.2)
  | .ok _ => (none, r.2)

/-- The request a `DeleteFiles` call for `ids` puts on the wire: the request the
SDK builds, after the pushed Build handler ran on it. -/
def S3Context.deleteRequest (ctx : S3Context σ) (ids : Option (List ObjectID)) :
    Request DeleteObjectsInput :=
  buildHandler
    { Operation := { Name := "DeleteObjects" }
      Params := { Bucket := some ctx.config.S3Bucket, Delete := some { Objects := ids } }
      Body := deleteBody
        { Bucket := some ctx.config.S3Bucket, Delete := some { Objects := ids } } }

/-- Go `(*S3Context).DeleteFolder`. -/
def S3Context.DeleteFolder (ctx : S3Context σ) (pfx : String) (w : World σ) :
    Option Error × World σ :=
  let r := ctx.ListFiles pfx w
  match r.1.2 with
  | some err => (some err, r.2)
  | none => ctx.DeleteFiles r.1.1 r.2

/-! ## A reference backend: the bucket as a map from key to bytes -/

/-- Go `strings.HasPrefix(s, pfx)`. -/
def hasPrefix (s pfx : String) : Bool := pfx.data.isPrefixOf s.data

/-- Modelled from the spec: the object store behind the SDK, which is not part
of the repository.  One bucket, a map from object key to content; the entries
are kept in the order a listing reports them, each key once. -/
structure Bucket where
  name : String
  objects : List (String × Bytes)
  deriving DecidableEq, Repr

/-- Modelled from the spec: what the service behind the SDK fixes and the
repository leaves open, taken as parameters: how many keys one `ListObjects`
response carries at most (the S3 API documents 1000; the package sets no
`MaxKeys` and no `Marker`), how the service decodes the `CopySource` of a copy
request, which the S3 API documents as URL-encoded (`none` for a value it
cannot decode). -/
structure Service where
  maxKeys : Nat
  unescape : String → Option String

/-- The content stored under a key. -/
def Bucket.get (b : Bucket) (key : String) : Option Bytes :=
  b.objects.lookup key

/-- The keys of the bucket that start with `pfx`, in listing order. -/
def Bucket.keysWith (b : Bucket) (pfx : String) : List String :=
  (b.objects.map Prod.fst).filter fun k => hasPrefix k pfx

/-- Store `body` under `key`, replacing what was there. -/
def Bucket.put (b : Bucket) (key : String) (body : Bytes) : Bucket :=
  { b with objects := (b.objects.filter fun o => o.1 ≠ key) ++ [(key, body)] }

/-- Remove the objects named by `ids`. -/
def Bucket.remove (b : Bucket) (ids : List ObjectID) : Bucket :=
  { b with objects := b.objects.filter fun o => ¬ ids.any fun i => i.Key = some o.1 }

/-- The service's answer for a bucket it does not host. -/
def errNoSuchBucket : SdkError :=
  SdkError.awserr "NoSuchBucket" "The specified bucket does not exist"

/-- The service's answer for a key that is not in the bucket. -/
def errNoSuchKey : SdkError :=
  SdkError.awserr ErrCodeNoSuchKey "The specified key does not exist."

/-- The SDK's answer for parameters it refuses before sending. -/
def errInvalidParameter : SdkError :=
  SdkError.awserr "InvalidParameter" "missing required field"

/-- The service's answer for a copy source it cannot decode. -/
def errInvalidArgument : SdkError :=
  SdkError.awserr "InvalidArgument" "Invalid copy source encoding"

/-- The SDK's answer when the context of a call is cancelled. -/
def errRequestCanceled : SdkError :=
  SdkError.awserr "RequestCanceled" "request context canceled"

/-- Modelled from the spec: an upload stores the stream under the key and
reports where the object is (path-style: `/bucket/key`). -/
def Bucket.Upload (input : UploadInput) (b : Bucket) : Except SdkError UploadOutput × Bucket :=
  match input.Bucket, input.Key with
  | some bn, some k =>
    if k = "" then (.error errInvalidParameter, b)
    else if bn ≠ b.name then (.error errNoSuchBucket, b)
    else (.ok { Location := "/" ++ bn ++ "/" ++ k }, b.put k input.Body)
  | _, _ => (.error errInvalidParameter, b)

/-- Modelled from the spec: the cancellable upload fails when its context is
cancelled and is the plain upload otherwise. -/
def Bucket.UploadWithContext (cctx : Context) (input : UploadInput) (b : Bucket) :
    Except SdkError UploadOutput × Bucket :=
  if cctx.cancelled then (.error errRequestCanceled, b) else b.Upload input

/-- Modelled from the spec: a fetch answers with the stored bytes, or with the
service error `NoSuchKey` when the key is absent. -/
def Bucket.GetObject (input : GetObjectInput) (b : Bucket) : Except SdkError GetObjectOutput :=
  match input.Bucket, input.Key with
  | some bn, some k =>
    if bn ≠ b.name then .error errNoSuchBucket
    else
      match b.get k with
      | some body => .ok { Body := { data := body, err := none } }
      | none => .error errNoSuchKey
  | _, _ => .error errInvalidParameter

/-- Modelled from the spec: a listing answers with the keys that start with the
prefix, at most `maxKeys` of them in one response, and says whether it was cut. -/
def Bucket.ListObjects (m : Service) (input : ListObjectsInput) (b : Bucket) :
    Except SdkError ListObjectsOutput :=
  match input.Bucket with
  | some bn =>
    if bn ≠ b.name then .error errNoSuchBucket
    else
      let keys := b.keysWith (input.Prefix.getD "")
      .ok { Contents := (keys.take m.maxKeys).map fun k => { Key := some k }
            IsTruncated := decide (m.maxKeys < keys.length) }
  | none => .error errInvalidParameter

/-- Modelled from the spec: a server-side copy.  The service decodes the copy
source, reads it as `bucket/key` and stores the content found there under the
destination key. -/
def Bucket.CopyObject (m : Service) (input : CopyObjectInput) (b : Bucket) :
    Except SdkError Unit × Bucket :=
  match input.Bucket, input.Key, input.CopySource with
  | some bn, some k, some src =>
    if bn ≠ b.name then (.error errNoSuchBucket, b)
    else
      match m.unescape src with
      | none => (.error errInvalidArgument, b)
      | some path =>
        if hasPrefix path (b.name ++ "/") then
          match b.get (String.mk (path.data.drop (b.name ++ "/").data.length)) with
          | some body => (.ok (), b.put k body)
          | none => (.error errNoSuchKey, b)
        else (.error errNoSuchBucket, b)
  | _, _, _ => (.error errInvalidParameter, b)

/-- Modelled from the spec: a batch deletion removes every object it names and
succeeds, also when it names none. -/
def Bucket.DeleteObjects (r : Request DeleteObjectsInput) (b : Bucket) :
    Except SdkError Unit × Bucket :=
  match r.Params.Bucket, r.Params.Delete with
  | some bn, some d =>
    match d.Objects with
    | some ids =>
      if bn ≠ b.name then (.error errNoSuchBucket, b) else (.ok (), b.remove ids)
    | none => (.error errInvalidParameter, b)
  | _, _ => (.error errInvalidParameter, b)

/-- The SDK client over the reference backend. -/
def bucketAPI (m : Service) : S3API Bucket where
  Upload := Bucket.Upload
  UploadWithContext := Bucket.UploadWithContext
  CopyObject := Bucket.CopyObject m
  GetObject := Bucket.GetObject
  ListObjects := Bucket.ListObjects m
  Send := Bucket.DeleteObjects

/-- A client with configuration `cfg` over the reference backend. -/
def clientOf (m : Service) (cfg : Config) : S3Context Bucket where
  session := bucketAPI m
  config := cfg

/-- The value of a hexadecimal digit. -/
def unhex (c : Char) : Option Nat :=
  if '0' ≤ c ∧ c ≤ '9' then some (c.toNat - '0'.toNat)
  else if 'a' ≤ c ∧ c ≤ 'f' then some (c.toNat - 'a'.toNat + 10)
  else if 'A' ≤ c ∧ c ≤ 'F' then some (c.toNat - 'A'.toNat + 10)
  else none

/-- URL-decoding of a character sequence: `%XY` stands for the character with
code `0xXY`, `+` for a blank, every other character for itself; `none` for a
`%` that two hexadecimal digits do not follow. -/
def unescapeChars : List Char → Option (List Char)
  | [] => some []
  | c :: rest =>
    if c = '%' then
      match rest with
      | h :: l :: tl =>
        match unhex h, unhex l with
        | some x, some y => (unescapeChars tl).map fun cs => Char.ofNat (16 * x + y) :: cs
        | _, _ => none
      | _ => none
    else if c = '+' then (unescapeChars rest).map fun cs => ' ' :: cs
    else (unescapeChars rest).map fun cs => c :: cs

/-- Modelled from the spec: the URL-decoding a service applies to a copy source,
for ASCII escapes. -/
def percentUnescape (s : String) : Option String :=
  (unescapeChars s.data).map String.mk

/-- The S3 service with its documented page size. -/
def s3 : Service where
  maxKeys := 1000
  unescape := percentUnescape

/-! ## Sample values -/

/-- A configuration naming the bucket `bucket`. -/
def sampleConfig : Config where
  S3Bucket := "bucket"
  S3Region := "ru-msk"
  S3Endpoint := "http://localhost:9000"
  S3AccessKeyID := "id"
  S3SecretAccessKey := "secret"

/-- A client for `sampleConfig` over the reference backend. -/
def sampleCtx : S3Context Bucket := clientOf s3 sampleConfig

/-- A client configured for a bucket the service does not host. -/
def strayCtx : S3Context Bucket := clientOf s3 { sampleConfig with S3Bucket := "other" }

/-- A world whose bucket holds the given objects and on which no call was made. -/
def worldOf (objects : List (String × Bytes)) : World Bucket where
  backend := { name := "bucket", objects := objects }
  sent := []

/-- The key `test/1000`, `test/1001`, ...: four digits each up to `test/9999`,
so that the order of the numbers is the byte order of the keys, the order in
which the service lists them. -/
def keyOf (i : Nat) : String := "test/" ++ toString (1000 + i)

/-- The objects `keyOf 0`, ..., `keyOf (n-1)`, all empty. -/
def numbered (n : Nat) : List (String × Bytes) :=
  (List.range n).map fun i => (keyOf i, [])

/-! ## The methods against any backend -/

/-- C1: when the backend's `GetObject` call fails with a service error whose code
is `NoSuchKey`, `GetObject` returns a nil body and the sentinel `NoSuchKeyError`;
when it fails with any other error (a service error with another code, or an
error that is no service error) `GetObject` returns a nil body and that error
unchanged, which is not `NoSuchKeyError`. -/
theorem GetObject_not_found_or_same_error (ctx : S3Context σ) (objectKey : String)
    (w : World σ) (e : SdkError)
    (hfail : ctx.session.GetObject
      { Bucket := some ctx.config.S3Bucket, Key := some objectKey } w.backend = .error e) :
    (e.Code = some "NoSuchKey" →
      (ctx.GetObject objectKey w).1 = (none, some NoSuchKeyError)) ∧
    (e.Code ≠ some "NoSuchKey" →
      (ctx.GetObject objectKey w).1 = (none, some (Error.sdk e)) ∧
      (ctx.GetObject objectKey w).1.2 ≠ some NoSuchKeyError) := by
  constructor
  · intro hcode
    simp [S3Context.GetObject, World.GetObject, awsString, hfail, hcode, ErrCodeNoSuchKey]
  · intro hcode
    cases e with
    | awserr code message =>
      have hne : ¬ code = "NoSuchKey" := by simpa [SdkError.Code] using hcode
      simp [S3Context.GetObject, World.GetObject, awsString, hfail, SdkError.Code,
        ErrCodeNoSuchKey, hne, NoSuchKeyError]
    | plain text =>
      simp [S3Context.GetObject, World.GetObject, awsString, hfail, SdkError.Code,
        NoSuchKeyError]

/-- The not-found branch on an empty bucket, the other branch on a client
configured for a bucket the service does not host. -/
theorem GetObject_not_found_or_same_error_witness :
    (sampleCtx.GetObject "kek" (worldOf [])).1 = (none, some NoSuchKeyError) ∧
    (strayCtx.GetObject "kek" (worldOf [])).1 = (none, some (Error.sdk errNoSuchBucket)) :=
  ⟨(GetObject_not_found_or_same_error sampleCtx "kek" (worldOf []) errNoSuchKey
      (by decide)).1 (by decide),
   ((GetObject_not_found_or_same_error strayCtx "kek" (worldOf []) errNoSuchBucket
      (by decide)).2 (by decide)).1⟩

/-- C5: when the listing step of `DeleteFolder` fails with an error `e`,
`DeleteFolder` returns exactly `e`, the only call it made is that listing (no
`DeleteObjects` request is issued), and the backend is left as it was. -/
theorem DeleteFolder_fails_fast (ctx : S3Context σ) (pfx : String) (w : World σ)
    (e : SdkError)
    (hlist : ctx.session.ListObjects
      { Bucket := some ctx.config.S3Bucket, Prefix := some pfx } w.backend = .error e) :
    (ctx.DeleteFolder pfx w).1 = some (Error.sdk e) ∧
    (ctx.DeleteFolder pfx w).2.sent
      = w.sent ++ [Call.ListObjects { Bucket := some ctx.config.S3Bucket, Prefix := some pfx }] ∧
    (∀ c ∈ ((ctx.DeleteFolder pfx w).2.sent.drop w.sent.length), c.isDeleteObjects = false) ∧
    (ctx.DeleteFolder pfx w).2.backend = w.backend := by
  simp [S3Context.DeleteFolder, S3Context.ListFiles, World.ListObjects, awsString, hlist,
    Call.isDeleteObjects]

/-- A client configured for a bucket the service does not host: the listing
fails with `NoSuchBucket`, and so does `DeleteFolder`, the objects untouched. -/
theorem DeleteFolder_fails_fast_witness :
    (strayCtx.DeleteFolder "test" (worldOf [("test/1", [1])])).1
      = some (Error.sdk errNoSuchBucket) ∧
    (strayCtx.DeleteFolder "test" (worldOf [("test/1", [1])])).2.backend
      = (worldOf [("test/1", [1])]).backend :=
  have h := DeleteFolder_fails_fast strayCtx "test" (worldOf [("test/1", [1])])
    errNoSuchBucket (by decide)
  ⟨h.1, h.2.2.2⟩

/-- What `DeleteFiles` does: one `DeleteObjects` request, its outcome returned. -/
theorem DeleteFiles_eq (ctx : S3Context σ) (ids : Option (List ObjectID)) (w : World σ) :
    ctx.DeleteFiles ids w
      = ((match (ctx.session.Send (ctx.deleteRequest ids) w.backend).1 with
          | .error err => some (Error.sdk err)
          | .ok _ => none),
         { backend := (ctx.session.Send (ctx.deleteRequest ids) w.backend).2
           sent := w.sent ++ [Call.DeleteObjects (ctx.deleteRequest ids)] }) := by
  simp only [S3Context.DeleteFiles, World.DeleteObjects, awsString, S3Context.deleteRequest]
  split <;> rfl

/-! ## The methods against the reference backend -/

/-- Entries that do not carry `key` do not answer a lookup of `key`. -/
theorem lookup_filter_ne_self (key : String) (l : List (String × Bytes)) :
    (l.filter fun o => o.1 ≠ key).lookup key = none := by
  induction l with
  | nil => rfl
  | cons o l ih =>
    obtain ⟨a, x⟩ := o
    by_cases h : a = key
    · rw [List.filter_cons_of_neg (by simp [h])]
      exact ih
    · rw [List.filter_cons_of_pos (by simp [h])]
      have hb : (key == a) = false := by
        simpa using fun h2 : key = a => h h2.symm
      rw [List.lookup_cons, hb]
      exact ih

/-- Dropping the entries of one key leaves the lookups of every other key. -/
theorem lookup_filter_ne_other (key other : String) (h : other ≠ key)
    (l : List (String × Bytes)) :
    (l.filter fun o => o.1 ≠ key).lookup other = l.lookup other := by
  induction l with
  | nil => rfl
  | cons o l ih =>
    obtain ⟨a, x⟩ := o
    by_cases h1 : a = key
    · have hb : (other == a) = false := by
        simpa [h1] using h
      rw [List.filter_cons_of_neg (by simp [h1]), List.lookup_cons, hb]
      exact ih
    · rw [List.filter_cons_of_pos (by simp [h1]), List.lookup_cons, List.lookup_cons, ih]

/-- A lookup in a list followed by one more entry. -/
theorem lookup_append_single (key k : String) (v : Bytes) (l : List (String × Bytes)) :
    (l ++ [(k, v)]).lookup key
      = match l.lookup key with
        | some x => some x
        | none => if key = k then some v else none := by
  induction l with
  | nil =>
    by_cases h : key = k
    · simp [List.lookup_cons, h]
    · have hb : (key == k) = false := by simpa using h
      simp [List.lookup_cons, hb, h]
  | cons o l ih =>
    obtain ⟨a, x⟩ := o
    by_cases h : key = a
    · have hb : (key == a) = true := by simpa using h
      rw [List.cons_append, List.lookup_cons, List.lookup_cons, hb]
    · have hb : (key == a) = false := by simpa using h
      rw [List.cons_append, List.lookup_cons, List.lookup_cons, hb]
      exact ih

/-- What was put under a key is what the key holds. -/
theorem Bucket.get_put_self (b : Bucket) (key : String) (body : Bytes) :
    (b.put key body).get key = some body := by
  show ((b.objects.filter fun o => o.1 ≠ key) ++ [(key, body)]).lookup key = some body
  rw [lookup_append_single, lookup_filter_ne_self]
  simp

/-- A put under one key leaves every other key as it was. -/
theorem Bucket.get_put_other (b : Bucket) (key other : String) (body : Bytes)
    (h : other ≠ key) : (b.put key body).get other = b.get other := by
  show ((b.objects.filter fun o => o.1 ≠ key) ++ [(key, body)]).lookup other
    = b.objects.lookup other
  rw [lookup_append_single, lookup_filter_ne_other key other h]
  cases b.objects.lookup other <;> simp [h]

/-- The method `GetObject` against the reference backend, for a key the bucket
holds. -/
theorem GetObject_bucket_some (m : Service) (cfg : Config) (key : String) (w : World Bucket)
    (body : Bytes) (hname : cfg.S3Bucket = w.backend.name) (hget : w.backend.get key = some body) :
    ((clientOf m cfg).GetObject key w).1 = (some body, none) := by
  simp [S3Context.GetObject, World.GetObject, clientOf, bucketAPI, Bucket.GetObject, awsString,
    hname, hget, ReadAll]

/-- The outcome of `UploadFile` against the reference backend. -/
theorem UploadFile_bucket_ok (m : Service) (cfg : Config) (file : Bytes) (k c : String)
    (w : World Bucket) (hok : ((clientOf m cfg).UploadFile file k c w).1.2 = none) :
    cfg.S3Bucket = w.backend.name ∧
    ((clientOf m cfg).UploadFile file k c w).2.backend = w.backend.put k file := by
  simp only [S3Context.UploadFile, World.Upload, clientOf, bucketAPI, Bucket.Upload,
    awsString] at hok ⊢
  by_cases hk : k = ""
  · simp [hk] at hok
  · by_cases hb : cfg.S3Bucket = w.backend.name
    · simp [hk, hb]
    · simp [hk, hb] at hok

/-- C2: over the bucket as a map from key to bytes, when `UploadFile` (or
`UploadImageFile`) of a stream yielding the bytes `b` to the key `k` returns no
error, a following `GetObject(k)` returns no error and exactly `b`. -/
theorem UploadFile_GetObject_roundtrip (m : Service) (cfg : Config) (b : Bytes)
    (k c : String) (w : World Bucket) :
    (((clientOf m cfg).UploadFile b k c w).1.2 = none →
      ((clientOf m cfg).GetObject k ((clientOf m cfg).UploadFile b k c w).2).1
        = (some b, none)) ∧
    (((clientOf m cfg).UploadImageFile b k w).1.2 = none →
      ((clientOf m cfg).GetObject k ((clientOf m cfg).UploadImageFile b k w).2).1
        = (some b, none)) := by
  have main : ∀ c : String, ((clientOf m cfg).UploadFile b k c w).1.2 = none →
      ((clientOf m cfg).GetObject k ((clientOf m cfg).UploadFile b k c w).2).1
        = (some b, none) := by
    intro c hok
    obtain ⟨hname, hback⟩ := UploadFile_bucket_ok m cfg b k c w hok
    apply GetObject_bucket_some
    · rw [hback]; exact hname
    · rw [hback]; exact Bucket.get_put_self _ _ _
  exact ⟨main c, main imageContentType⟩

/-- The scenario of the test suite: upload bytes to `a/1.jpg`, fetch them back;
the key held other content before. -/
theorem UploadFile_GetObject_roundtrip_witness :
    (sampleCtx.GetObject "a/1.jpg"
        (sampleCtx.UploadFile [255, 216, 255] "a/1.jpg" "image/jpeg"
          (worldOf [("a/1.jpg", [0])])).2).1
      = (some [255, 216, 255], none) :=
  (UploadFile_GetObject_roundtrip s3 sampleConfig [255, 216, 255] "a/1.jpg" "image/jpeg"
    (worldOf [("a/1.jpg", [0])])).1 (by decide)

/-- A string starts with what it was built from. -/
theorem hasPrefix_append (a s : String) : hasPrefix (a ++ s) a = true := by
  simp [hasPrefix, String.data_append, List.isPrefixOf_iff_prefix]

/-- Cutting the front part off a concatenation leaves the back part. -/
theorem mk_drop_append (a s : String) : String.mk ((a ++ s).data.drop a.data.length) = s := by
  simp [String.data_append]

/-- The outcome of `CopyObject` against the reference backend, when the service
reads the copy source as it was written. -/
theorem CopyObject_bucket_ok (m : Service) (cfg : Config) (s d : String) (w : World Bucket)
    (hdec : m.unescape (cfg.S3Bucket ++ "/" ++ s) = some (cfg.S3Bucket ++ "/" ++ s))
    (hok : ((clientOf m cfg).CopyObject s d w).1 = none) :
    cfg.S3Bucket = w.backend.name ∧
    ∃ body, w.backend.get s = some body ∧
      ((clientOf m cfg).CopyObject s d w).2.backend = w.backend.put d body := by
  simp only [S3Context.CopyObject, World.CopyObject, clientOf, bucketAPI, Bucket.CopyObject,
    awsString] at hok ⊢
  by_cases hb : cfg.S3Bucket = w.backend.name
  · refine ⟨hb, ?_⟩
    rw [← hb] at hok ⊢
    simp only [hdec, hasPrefix_append, mk_drop_append, ne_eq, not_true_eq_false,
      if_false, if_true] at hok ⊢
    cases hget : w.backend.get s with
    | none => simp [hget] at hok
    | some body => exact ⟨body, rfl, by simp⟩
  · simp [hb] at hok

/-- What a copy does for a source key that needs no URL-encoding (the service's
decoding leaves `<bucket>/<s>` as written): when `CopyObject(s, d)` returns no
error the source key was present and afterwards `GetObject(d)` and
`GetObject(s)` both return its bytes.  The one request made names the source as
`<bucket>/<s>`, the destination key `d` in the configured bucket, and the ACL
`public-read`. -/
theorem CopyObject_preserves_content (m : Service) (cfg : Config) (s d : String)
    (w : World Bucket)
    (hdec : m.unescape (cfg.S3Bucket ++ "/" ++ s) = some (cfg.S3Bucket ++ "/" ++ s))
    (hok : ((clientOf m cfg).CopyObject s d w).1 = none) :
    (∃ body, w.backend.get s = some body ∧
      ((clientOf m cfg).GetObject d ((clientOf m cfg).CopyObject s d w).2).1 = (some body, none) ∧
      ((clientOf m cfg).GetObject s ((clientOf m cfg).CopyObject s d w).2).1 = (some body, none)) ∧
    ((clientOf m cfg).CopyObject s d w).2.sent
      = w.sent ++ [Call.CopyObject
          { CopySource := some (cfg.S3Bucket ++ "/" ++ s), Key := some d,
            ACL := some "public-read", Bucket := some cfg.S3Bucket }] := by
  obtain ⟨hname, body, hget, hback⟩ := CopyObject_bucket_ok m cfg s d w hdec hok
  refine ⟨⟨body, hget, ?_, ?_⟩, ?_⟩
  · apply GetObject_bucket_some
    · rw [hback]; exact hname
    · rw [hback]; exact Bucket.get_put_self _ _ _
  · apply GetObject_bucket_some
    · rw [hback]; exact hname
    · rw [hback]
      by_cases hsd : s = d
      · rw [hsd]; exact Bucket.get_put_self _ _ _
      · rw [Bucket.get_put_other _ _ _ _ hsd]; exact hget
  · simp only [S3Context.CopyObject, World.CopyObject, awsString]
    split <;> rfl

/-- A copy to a destination key with a space, `+`, `?` and `%` in it. -/
theorem CopyObject_preserves_content_witness :
    (∃ body, (worldOf [("test/original.jpg", [7, 8])]).backend.get "test/original.jpg"
        = some body ∧
      (sampleCtx.GetObject "test/co py+1?%.jpg"
        (sampleCtx.CopyObject "test/original.jpg" "test/co py+1?%.jpg"
          (worldOf [("test/original.jpg", [7, 8])])).2).1 = (some body, none) ∧
      (sampleCtx.GetObject "test/original.jpg"
        (sampleCtx.CopyObject "test/original.jpg" "test/co py+1?%.jpg"
          (worldOf [("test/original.jpg", [7, 8])])).2).1 = (some body, none)) :=
  (CopyObject_preserves_content s3 sampleConfig "test/original.jpg" "test/co py+1?%.jpg"
    (worldOf [("test/original.jpg", [7, 8])]) (by decide) (by decide)).1

/-- C6 at source keys that need URL-encoding.  The bucket holds `a%41` and `aA`:
`CopyObject("a%41", "d")` sends the copy source `bucket/a%41` as it is, the
service decodes it to `bucket/aA`, the copy succeeds, and `d` holds the bytes
of `aA`, not those of `a%41`.  Likewise with `a+b` and `a b`: the service reads
the `+` of the copy source as a blank, and `d` holds the bytes of `a b`. -/
theorem CopyObject_source_decoded :
    ((worldOf [("a%41", [1]), ("aA", [2])]).backend.get "a%41" = some [1] ∧
     (sampleCtx.CopyObject "a%41" "d" (worldOf [("a%41", [1]), ("aA", [2])])).1 = none ∧
     (sampleCtx.GetObject "d"
       (sampleCtx.CopyObject "a%41" "d" (worldOf [("a%41", [1]), ("aA", [2])])).2).1
       = (some [2], none) ∧
     (sampleCtx.GetObject "a%41"
       (sampleCtx.CopyObject "a%41" "d" (worldOf [("a%41", [1]), ("aA", [2])])).2).1
       = (some [1], none)) ∧
    ((worldOf [("a+b", [1]), ("a b", [2])]).backend.get "a+b" = some [1] ∧
     (sampleCtx.CopyObject "a+b" "d" (worldOf [("a+b", [1]), ("a b", [2])])).1 = none ∧
     (sampleCtx.GetObject "d"
       (sampleCtx.CopyObject "a+b" "d" (worldOf [("a+b", [1]), ("a b", [2])])).2).1
       = (some [2], none) ∧
     (sampleCtx.GetObject "a+b"
       (sampleCtx.CopyObject "a+b" "d" (worldOf [("a+b", [1]), ("a b", [2])])).2).1
       = (some [1], none)) := by
  decide

/-- The method `ListFiles` against the reference backend: the identifiers of the first
page of the keys under the prefix. -/
theorem ListFiles_bucket (m : Service) (cfg : Config) (pfx : String) (w : World Bucket)
    (hname : cfg.S3Bucket = w.backend.name) :
    (clientOf m cfg).ListFiles pfx w
      = ((some (((w.backend.keysWith pfx).take m.maxKeys).map
            fun k => ({ Key := some k, VersionId := none } : ObjectID)), none),
         { backend := w.backend
           sent := w.sent ++
            [Call.ListObjects { Bucket := some cfg.S3Bucket, Prefix := some pfx }] }) := by
  simp [S3Context.ListFiles, World.ListObjects, clientOf, bucketAPI, Bucket.ListObjects,
    awsString, hname, Function.comp_def]

/-- A batch deletion the reference backend accepts. -/
theorem Bucket.DeleteObjects_ok (r : Request DeleteObjectsInput) (b : Bucket)
    (ids : List ObjectID)
    (hp : r.Params = { Bucket := some b.name, Delete := some { Objects := some ids } }) :
    Bucket.DeleteObjects r b = (.ok (), b.remove ids) := by
  simp [Bucket.DeleteObjects, hp]

/-- The parameters of the request `DeleteFiles` sends. -/
theorem deleteRequest_Params (ctx : S3Context σ) (ids : Option (List ObjectID)) :
    (ctx.deleteRequest ids).Params
      = { Bucket := some ctx.config.S3Bucket, Delete := some { Objects := ids } } := by
  simp only [S3Context.deleteRequest, buildHandler]
  split <;> rfl

/-- The method `DeleteFiles` against the reference backend. -/
theorem DeleteFiles_bucket (m : Service) (cfg : Config) (ids : List ObjectID)
    (w : World Bucket) (hname : cfg.S3Bucket = w.backend.name) :
    ((clientOf m cfg).DeleteFiles (some ids) w).1 = none ∧
    ((clientOf m cfg).DeleteFiles (some ids) w).2.backend = w.backend.remove ids := by
  have hsend : (clientOf m cfg).session.Send ((clientOf m cfg).deleteRequest (some ids)) w.backend
      = (.ok (), w.backend.remove ids) := by
    show Bucket.DeleteObjects ((clientOf m cfg).deleteRequest (some ids)) w.backend = _
    apply Bucket.DeleteObjects_ok
    rw [deleteRequest_Params, ← hname]
    rfl
  rw [DeleteFiles_eq, hsend]
  exact ⟨rfl, rfl⟩

/-- The method `DeleteFolder` against the reference backend: the objects of the first page
of the listing are removed, and no error is returned. -/
theorem DeleteFolder_bucket (m : Service) (cfg : Config) (pfx : String) (w : World Bucket)
    (hname : cfg.S3Bucket = w.backend.name) :
    ((clientOf m cfg).DeleteFolder pfx w).1 = none ∧
    ((clientOf m cfg).DeleteFolder pfx w).2.backend
      = w.backend.remove (((w.backend.keysWith pfx).take m.maxKeys).map
          fun k => ({ Key := some k, VersionId := none } : ObjectID)) := by
  have hfolder : (clientOf m cfg).DeleteFolder pfx w
      = (clientOf m cfg).DeleteFiles
          (some (((w.backend.keysWith pfx).take m.maxKeys).map
            fun k => ({ Key := some k, VersionId := none } : ObjectID)))
          { backend := w.backend
            sent := w.sent ++
              [Call.ListObjects { Bucket := some cfg.S3Bucket, Prefix := some pfx }] } := by
    simp only [S3Context.DeleteFolder, ListFiles_bucket m cfg pfx w hname]
  rw [hfolder]
  exact DeleteFiles_bucket m cfg _ _ hname

/-- The listing leaves the backend as it is and adds its call to the log. -/
theorem ListFiles_world (ctx : S3Context σ) (pfx : String) (w : World σ) :
    (ctx.ListFiles pfx w).2
      = { backend := w.backend
          sent := w.sent ++
            [Call.ListObjects { Bucket := some ctx.config.S3Bucket, Prefix := some pfx }] } := by
  simp only [S3Context.ListFiles, World.ListObjects, awsString]
  split <;> rfl

/-- Removing no object leaves the bucket as it is. -/
theorem Bucket.remove_nil (b : Bucket) : b.remove [] = b := by
  simp [Bucket.remove]

/-- C4 (as amended): over the bucket as a map from key to bytes, when the listing
succeeds with zero matching objects, `DeleteFolder` returns no error and leaves
the bucket unchanged, but it does issue one batch-deletion request: after the
listing call it sends one `DeleteObjects` request, for the configured bucket
and with an empty object list. -/
theorem DeleteFolder_empty_listing (m : Service) (cfg : Config) (pfx : String)
    (w : World Bucket)
    (hlist : ((clientOf m cfg).ListFiles pfx w).1 = (some [], none)) :
    ((clientOf m cfg).DeleteFolder pfx w).1 = none ∧
    ((clientOf m cfg).DeleteFolder pfx w).2.backend = w.backend ∧
    ((clientOf m cfg).DeleteFolder pfx w).2.sent
      = w.sent ++ [Call.ListObjects { Bucket := some cfg.S3Bucket, Prefix := some pfx },
                   Call.DeleteObjects ((clientOf m cfg).deleteRequest (some []))] ∧
    ((clientOf m cfg).deleteRequest (some [])).Operation.Name = "DeleteObjects" ∧
    ((clientOf m cfg).deleteRequest (some [])).Params
      = { Bucket := some cfg.S3Bucket, Delete := some { Objects := some [] } } := by
  have hname : cfg.S3Bucket = w.backend.name := by
    by_contra hne
    simp [S3Context.ListFiles, World.ListObjects, clientOf, bucketAPI, Bucket.ListObjects,
      awsString, hne] at hlist
  have hfiles : (clientOf m cfg).ListFiles pfx w
      = ((some [], none),
         { backend := w.backend
           sent := w.sent ++
            [Call.ListObjects { Bucket := some cfg.S3Bucket, Prefix := some pfx }] }) :=
    Prod.ext hlist (ListFiles_world (clientOf m cfg) pfx w)
  have hfolder : (clientOf m cfg).DeleteFolder pfx w
      = (clientOf m cfg).DeleteFiles (some [])
          { backend := w.backend
            sent := w.sent ++
              [Call.ListObjects { Bucket := some cfg.S3Bucket, Prefix := some pfx }] } := by
    simp only [S3Context.DeleteFolder, hfiles]
  have hdel := DeleteFiles_bucket m cfg []
    { backend := w.backend
      sent := w.sent ++ [Call.ListObjects { Bucket := some cfg.S3Bucket, Prefix := some pfx }] }
    hname
  rw [hfolder]
  refine ⟨hdel.1, ?_, ?_, ?_, deleteRequest_Params _ _⟩
  · rw [hdel.2]
    exact Bucket.remove_nil _
  · rw [DeleteFiles_eq]
    simp [clientOf]
  · have hop : ∀ r : Request DeleteObjectsInput, (buildHandler r).Operation = r.Operation := by
      intro r
      simp only [buildHandler]
      split <;> rfl
    simp only [S3Context.deleteRequest, hop]

/-- A bucket with nothing under `a/`: no error, the bucket as it was, and the
batch request sent all the same. -/
theorem DeleteFolder_empty_listing_witness :
    (sampleCtx.DeleteFolder "a/" (worldOf [("b/1", [1])])).1 = none ∧
    (sampleCtx.DeleteFolder "a/" (worldOf [("b/1", [1])])).2.backend
      = (worldOf [("b/1", [1])]).backend ∧
    (sampleCtx.DeleteFolder "a/" (worldOf [("b/1", [1])])).2.sent
      = [Call.ListObjects { Bucket := some "bucket", Prefix := some "a/" },
         Call.DeleteObjects (sampleCtx.deleteRequest (some []))] :=
  have h := DeleteFolder_empty_listing s3 sampleConfig "a/" (worldOf [("b/1", [1])])
    (by decide)
  ⟨h.1, h.2.1, h.2.2.1⟩

/-- C4 (as stated) fails: with nothing under `a/` the listing succeeds with zero
objects, and yet a `DeleteObjects` request is among the calls `DeleteFolder`
made. -/
theorem DeleteFolder_empty_listing_not_silent :
    (sampleCtx.ListFiles "a/" (worldOf [("b/1", [1])])).1 = (some [], none) ∧
    ¬ (∀ c ∈ (sampleCtx.DeleteFolder "a/" (worldOf [("b/1", [1])])).2.sent,
        c.isDeleteObjects = false) := by
  decide

/-- The numbered objects, one more at the end. -/
theorem numbered_succ (n : Nat) :
    numbered (n + 1) = numbered n ++ [(keyOf n, [])] := by
  simp [numbered, List.range_succ]

/-- Every numbered object lies under `test`. -/
theorem numbered_hasPrefix (n : Nat) : ∀ k ∈ (numbered n).map Prod.fst, hasPrefix k "test" = true := by
  intro k hk
  simp only [numbered, List.map_map, List.mem_map, List.mem_range, Function.comp] at hk
  obtain ⟨i, _, rfl⟩ := hk
  have h : keyOf i = "test" ++ ("/" ++ toString (1000 + i)) := by
    rw [← String.append_assoc]; rfl
  rw [h]
  exact hasPrefix_append _ _

/-- The keys under `test` of a bucket of numbered objects are all its keys. -/
theorem keysWith_numbered (n : Nat) :
    (worldOf (numbered n)).backend.keysWith "test" = (numbered n).map Prod.fst := by
  simp only [Bucket.keysWith, worldOf]
  exact List.filter_eq_self.mpr (numbered_hasPrefix n)

set_option maxRecDepth 1000000 in
/-- The first thousand numbered keys do not include the next one. -/
theorem numbered_thousand_fresh :
    ∀ o ∈ numbered 1000, o.1 ≠ keyOf 1000 := by
  intro o ho
  simp only [numbered, List.mem_map, List.mem_range] at ho
  obtain ⟨i, hi, rfl⟩ := ho
  have hall : ∀ j, j < 1000 → keyOf j ≠ keyOf 1000 := by
    decide
  exact hall i hi

/-- A key is named by the identifiers made from a list of keys exactly when
it is in the list. -/
theorem any_Key_iff (keys : List String) (key : String) :
    ((keys.map fun k => ({ Key := some k, VersionId := none } : ObjectID)).any
      fun i => i.Key = some key) = true ↔ key ∈ keys := by
  induction keys with
  | nil => simp
  | cons k ks ih =>
    rw [List.map_cons, List.any_cons, Bool.or_eq_true, ih, List.mem_cons]
    simp [eq_comm]

/-- The first page of the listing of 1001 numbered objects: the first 1000. -/
theorem firstPage_numbered :
    ((worldOf (numbered 1001)).backend.keysWith "test").take s3.maxKeys
      = (numbered 1000).map Prod.fst := by
  rw [keysWith_numbered, numbered_succ, List.map_append]
  apply List.take_left'
  simp [numbered, s3]

/-- Removing the first page from the 1001 numbered objects leaves the last. -/
theorem remove_firstPage_numbered :
    (worldOf (numbered 1001)).backend.remove
        ((((worldOf (numbered 1001)).backend.keysWith "test").take s3.maxKeys).map
          fun k => ({ Key := some k, VersionId := none } : ObjectID))
      = { name := "bucket", objects := [(keyOf 1000, [])] } := by
  rw [firstPage_numbered]
  simp only [Bucket.remove, worldOf]
  rw [numbered_succ 1000]
  simp only [List.filter_append, Bucket.mk.injEq, true_and]
  have h1 : (numbered 1000).filter (fun o => ¬ (((numbered 1000).map Prod.fst).map
      fun k => ({ Key := some k, VersionId := none } : ObjectID)).any
        fun i => i.Key = some o.1) = [] := by
    rw [List.filter_eq_nil_iff]
    intro o ho
    have hmem : o.1 ∈ (numbered 1000).map Prod.fst := List.mem_map_of_mem _ ho
    rw [(any_Key_iff _ _).mpr hmem]
    decide
  have h2 : [((keyOf 1000 : String), ([] : Bytes))].filter
      (fun o => ¬ (((numbered 1000).map Prod.fst).map
        fun k => ({ Key := some k, VersionId := none } : ObjectID)).any
          fun i => i.Key = some o.1) = [(keyOf 1000, [])] := by
    rw [List.filter_eq_self]
    intro o ho
    rw [List.mem_singleton] at ho
    subst ho
    have hnot : ¬ (keyOf 1000) ∈ (numbered 1000).map Prod.fst := by
      intro hmem
      obtain ⟨o, ho, hk⟩ := List.mem_map.mp hmem
      exact numbered_thousand_fresh o ho hk
    have hfalse := (not_congr (any_Key_iff ((numbered 1000).map Prod.fst)
      (keyOf 1000))).mpr hnot
    exact decide_eq_true hfalse
  rw [h1, h2]
  rfl

/-- C9 at a bucket of the 1001 objects `test/1000`, ..., `test/2000`, against a
service that answers with at most 1000 keys: 1001 keys start with the prefix,
`ListFiles` succeeds and returns the identifiers of the first 1000 only
(`test/1000`, ..., `test/1999`). -/
theorem ListFiles_first_page_only :
    ((worldOf (numbered 1001)).backend.keysWith "test").length = 1001 ∧
    (sampleCtx.ListFiles "test" (worldOf (numbered 1001))).1
      = (some ((numbered 1000).map
          fun o => ({ Key := some o.1, VersionId := none } : ObjectID)), none) ∧
    ((numbered 1000).map
      fun o => ({ Key := some o.1, VersionId := none } : ObjectID)).length = 1000 := by
  refine ⟨?_, ?_, ?_⟩
  · rw [keysWith_numbered]
    simp [numbered]
  · have h : sampleCtx.ListFiles "test" (worldOf (numbered 1001)) = _ :=
      ListFiles_bucket s3 sampleConfig "test" (worldOf (numbered 1001)) rfl
    rw [firstPage_numbered] at h
    rw [h, List.map_map]
    rfl
  · simp [numbered]

/-- C3 at a bucket of the 1001 objects `test/1000`, ..., `test/2000`, against a
service that answers with at most 1000 keys: `DeleteFolder` returns no error, and the listing that
follows still finds the last of them, `test/2000`. -/
theorem DeleteFolder_leaves_second_page :
    (sampleCtx.DeleteFolder "test" (worldOf (numbered 1001))).1 = none ∧
    (sampleCtx.ListFiles "test" (sampleCtx.DeleteFolder "test" (worldOf (numbered 1001))).2).1
      = (some [{ Key := some "test/2000", VersionId := none }], none) := by
  have hkey : keyOf 1000 = "test/2000" := by decide
  have hdel : (sampleCtx.DeleteFolder "test" (worldOf (numbered 1001))).1 = none ∧
      (sampleCtx.DeleteFolder "test" (worldOf (numbered 1001))).2.backend = _ :=
    DeleteFolder_bucket s3 sampleConfig "test" (worldOf (numbered 1001)) rfl
  rw [remove_firstPage_numbered] at hdel
  refine ⟨hdel.1, ?_⟩
  have hlist : sampleCtx.ListFiles "test"
      (sampleCtx.DeleteFolder "test" (worldOf (numbered 1001))).2 = _ :=
    ListFiles_bucket s3 sampleConfig "test"
      (sampleCtx.DeleteFolder "test" (worldOf (numbered 1001))).2
      (by rw [hdel.2]; rfl)
  rw [hlist, hdel.2]
  have hkeys : ({ name := "bucket", objects := [(keyOf 1000, [])] } :
      Bucket).keysWith "test" = [keyOf 1000] := by
    have hp : hasPrefix (keyOf 1000) "test" = true :=
      numbered_hasPrefix 1001 _
        (List.mem_map.mpr ⟨(keyOf 1000, []),
          List.mem_map.mpr ⟨1000, List.mem_range.mpr (by omega), rfl⟩, rfl⟩)
    simp [Bucket.keysWith, hp]
  rw [hkeys, hkey]
  rfl

/-! ## The Build handler -/

/-- Skipping `k` bytes and scanning on is scanning what is left after them. -/
theorem deleteOccurrences_skip (pat : Bytes) (k : Nat) (s : Bytes) :
    deleteOccurrences pat k s = deleteOccurrences pat 0 (s.drop k) := by
  induction s generalizing k with
  | nil => simp [deleteOccurrences]
  | cons c cs ih =>
    cases k with
    | zero => rfl
    | succ k => simp only [deleteOccurrences, List.drop_succ_cons]; exact ih k

/-- An instance at the front is dropped whole. -/
theorem deleteOccurrences_match (pat s : Bytes) (hpat : pat ≠ [])
    (h : pat.isPrefixOf s = true) :
    deleteOccurrences pat 0 s = deleteOccurrences pat 0 (s.drop pat.length) := by
  cases s with
  | nil =>
    cases pat with
    | nil => exact absurd rfl hpat
    | cons p ps => simp [List.isPrefixOf] at h
  | cons c cs =>
    obtain ⟨n, hn⟩ : ∃ n, pat.length = n + 1 := by
      cases pat with
      | nil => exact absurd rfl hpat
      | cons p ps => exact ⟨ps.length, rfl⟩
    simp only [deleteOccurrences, h, if_true, hn, Nat.add_sub_cancel, List.drop_succ_cons]
    exact deleteOccurrences_skip pat n cs

/-- Where no instance starts at the front, the first byte is kept. -/
theorem deleteOccurrences_keep (pat : Bytes) (c : Byte) (cs : Bytes)
    (h : pat.isPrefixOf (c :: cs) = false) :
    deleteOccurrences pat 0 (c :: cs) = c :: deleteOccurrences pat 0 cs := by
  simp [deleteOccurrences, h]

/-- A sequence `bytes.Index` finds no instance in is left as it is. -/
theorem deleteOccurrences_of_Index_none (pat s : Bytes) (h : bytes.Index s pat = none) :
    deleteOccurrences pat 0 s = s := by
  induction s with
  | nil => rfl
  | cons c cs ih =>
    unfold bytes.Index at h
    by_cases hp : pat.isPrefixOf (c :: cs) = true
    · simp [hp] at h
    · have hp' : pat.isPrefixOf (c :: cs) = false := Bool.eq_false_iff.mpr hp
      simp only [hp', Bool.false_eq_true, if_false, Option.map_eq_none'] at h
      rw [deleteOccurrences_keep pat c cs hp', ih h]

/-- Up to the instance `bytes.Index` finds, every byte is kept; the instance is
dropped and the scan goes on behind it. -/
theorem deleteOccurrences_of_Index_some (pat : Bytes) (hpat : pat ≠ []) (s : Bytes) (k : Nat)
    (h : bytes.Index s pat = some k) :
    deleteOccurrences pat 0 s
      = s.take k ++ deleteOccurrences pat 0 (s.drop (k + pat.length)) := by
  induction s generalizing k with
  | nil =>
    cases pat with
    | nil => exact absurd rfl hpat
    | cons p ps => simp [bytes.Index, List.isPrefixOf] at h
  | cons c cs ih =>
    unfold bytes.Index at h
    by_cases hp : pat.isPrefixOf (c :: cs) = true
    · simp only [hp, if_true, Option.some.injEq] at h
      subst h
      simpa using deleteOccurrences_match pat (c :: cs) hpat hp
    · have hp' : pat.isPrefixOf (c :: cs) = false := Bool.eq_false_iff.mpr hp
      simp only [hp', Bool.false_eq_true, if_false, Option.map_eq_some'] at h
      obtain ⟨k', hk', rfl⟩ := h
      rw [deleteOccurrences_keep pat c cs hp', ih k' hk']
      have harith : k' + 1 + pat.length = (k' + pat.length) + 1 := by omega
      simp [harith]

/-- Go `bytes.Index` finds nothing in an empty sequence. -/
theorem Index_some_ne_nil (pat : Bytes) (hpat : pat ≠ []) (s : Bytes) (k : Nat)
    (h : bytes.Index s pat = some k) : s ≠ [] := by
  intro hs
  subst hs
  cases pat with
  | nil => exact absurd rfl hpat
  | cons p ps => simp [bytes.Index, List.isPrefixOf] at h

/-- The counter of the counting loop only adds to what it starts from. -/
theorem countLoop_acc (pat : Bytes) (fuel : Nat) (s : Bytes) (n : Nat) :
    bytes.countLoop pat fuel s n = bytes.countLoop pat fuel s 0 + n := by
  induction fuel generalizing s n with
  | zero => simp [bytes.countLoop]
  | succ fuel ih =>
    unfold bytes.countLoop
    cases bytes.Index s pat with
    | none => simp
    | some i =>
      simp only
      rw [ih _ (n + 1), ih _ (0 + 1)]
      omega

/-- The replacement loop, run as often as the counting loop counted, yields the
bytes collected so far followed by the rest without its instances. -/
theorem replaceLoop_countLoop (pat : Bytes) (hpat : pat ≠ []) (s : Bytes) (fuel : Nat) :
    ∀ (start : Nat) (t : Bytes), (s.drop start).length < fuel →
      bytes.replaceLoop s pat [] (bytes.countLoop pat fuel (s.drop start) 0) start t
        = t ++ deleteOccurrences pat 0 (s.drop start) := by
  induction fuel with
  | zero => intro start t h; omega
  | succ fuel ih =>
    intro start t hlen
    unfold bytes.countLoop
    cases hidx : bytes.Index (s.drop start) pat with
    | none =>
      simp only [bytes.replaceLoop]
      rw [deleteOccurrences_of_Index_none pat _ hidx]
    | some k =>
      simp only
      rw [countLoop_acc]
      unfold bytes.replaceLoop
      simp only [hidx]
      have hdrop : (s.drop start).drop (k + pat.length) = s.drop (start + k + pat.length) := by
        rw [List.drop_drop]; congr 1; omega
      have hne := Index_some_ne_nil pat hpat _ k hidx
      have hpos : 0 < (s.drop start).length := List.length_pos.mpr hne
      have hpl : 0 < pat.length := List.length_pos.mpr hpat
      have hshort : (s.drop (start + k + pat.length)).length < fuel := by
        rw [← hdrop, List.length_drop]; omega
      rw [hdrop, ih (start + k + pat.length) _ hshort,
        deleteOccurrences_of_Index_some pat hpat _ k hidx, hdrop]
      simp

/-- Go `bytes.Replace(s, old, "", -1)` for a non-empty `old` is `s` without the
instances of `old` a left-to-right scan meets. -/
theorem Replace_eq_deleteOccurrences (pat : Bytes) (hpat : pat ≠ []) (s : Bytes) :
    bytes.Replace s pat [] (-1) = deleteOccurrences pat 0 s := by
  have h := replaceLoop_countLoop pat hpat s (s.length + 1) 0 [] (by simp)
  simp only [List.drop_zero, List.nil_append] at h
  unfold bytes.Replace bytes.Count
  simp only [hpat, if_false, ne_eq, Int.reduceNeg, Int.neg_eq_zero, one_ne_zero,
    not_false_eq_true, if_true, Int.neg_neg_iff_pos, zero_lt_one, true_or]
  by_cases hm : bytes.countLoop pat (s.length + 1) s 0 = 0
  · rw [hm] at h
    simp only [hm, if_true]
    rw [← h]
    simp [bytes.replaceLoop]
  · simp only [hm, if_false]
    exact h

/-- The attribute is not empty. -/
theorem xmlnsAttr_ne_nil : xmlnsAttr ≠ [] := by decide

/-- A sequence that does not contain `pat` is left as it is. -/
theorem deleteOccurrences_of_not_infix (pat s : Bytes) (h : ¬ pat <:+: s) :
    deleteOccurrences pat 0 s = s := by
  induction s with
  | nil => rfl
  | cons c cs ih =>
    have hp : pat.isPrefixOf (c :: cs) = false := by
      apply Bool.eq_false_iff.mpr
      intro hp
      exact h (List.isPrefixOf_iff_prefix.mp hp).isInfix
    rw [deleteOccurrences_keep pat c cs hp, ih fun hi => h (List.infix_cons hi)]

/-- The body the Build handler leaves on a `DeleteObjects` request. -/
theorem buildHandler_Body {π : Type} (r : Request π)
    (hname : r.Operation.Name = "DeleteObjects") :
    buildHandler r = { r with Body := deleteOccurrences xmlnsAttr 0 r.Body } := by
  have hempty : toBytes "" = [] := rfl
  simp only [buildHandler, hname, if_true, ReadFrom, Request.SetReaderBody, hempty,
    Replace_eq_deleteOccurrences xmlnsAttr xmlnsAttr_ne_nil]

/-- C10: the Build handler leaves a request of any other operation untouched;
it leaves a `DeleteObjects` request whose body does not contain the attribute
untouched; it never changes the operation or the parameters; and the body it
leaves on a `DeleteObjects` request is the original without the non-overlapping
instances of the attribute a left-to-right scan meets, every other byte kept in
order. -/
theorem buildHandler_changes_nothing_else {π : Type} (r : Request π) :
    (r.Operation.Name ≠ "DeleteObjects" → buildHandler r = r) ∧
    (r.Operation.Name = "DeleteObjects" → ¬ xmlnsAttr <:+: r.Body → buildHandler r = r) ∧
    (r.Operation.Name = "DeleteObjects" →
      (buildHandler r).Body = deleteOccurrences xmlnsAttr 0 r.Body) ∧
    (buildHandler r).Operation = r.Operation ∧
    (buildHandler r).Params = r.Params := by
  refine ⟨?_, ?_, ?_, ?_, ?_⟩
  · intro hname
    simp [buildHandler, hname]
  · intro hname hfree
    rw [buildHandler_Body r hname, deleteOccurrences_of_not_infix _ _ hfree]
  · intro hname
    rw [buildHandler_Body r hname]
  · by_cases hname : r.Operation.Name = "DeleteObjects"
    · rw [buildHandler_Body r hname]
    · simp [buildHandler, hname]
  · by_cases hname : r.Operation.Name = "DeleteObjects"
    · rw [buildHandler_Body r hname]
    · simp [buildHandler, hname]

/-- A listing request passes unchanged; a batch-delete body without the
attribute passes unchanged; one with the attribute loses it. -/
theorem buildHandler_changes_nothing_else_witness :
    buildHandler (Request.mk { Name := "ListObjects" } Unit.unit xmlnsAttr)
      = Request.mk { Name := "ListObjects" } Unit.unit xmlnsAttr ∧
    buildHandler (Request.mk { Name := "DeleteObjects" } Unit.unit (toBytes "<Delete></Delete>"))
      = Request.mk { Name := "DeleteObjects" } Unit.unit (toBytes "<Delete></Delete>") ∧
    (buildHandler (Request.mk { Name := "DeleteObjects" } Unit.unit
        (toBytes "<Delete" ++ xmlnsAttr ++ toBytes "></Delete>"))).Body
      = toBytes "<Delete></Delete>" :=
  ⟨(buildHandler_changes_nothing_else _).1 (by decide),
   (buildHandler_changes_nothing_else _).2.1 rfl (by decide),
   ((buildHandler_changes_nothing_else _).2.2.1 rfl).trans (by decide)⟩

/-- The attribute contains a double quote. -/
theorem quote_mem_xmlnsAttr : (34 : Byte) ∈ xmlnsAttr := by decide

/-- Bytes without a double quote do not contain the attribute. -/
theorem not_infix_of_quote_free (u : Bytes) (hq : (34 : Byte) ∉ u) : ¬ xmlnsAttr <:+: u :=
  fun h => hq (h.subset quote_mem_xmlnsAttr)

/-- In front of an instance of the attribute, after bytes without a double
quote, no instance starts: one starting there would need a double quote among
those bytes, or a second blank inside the attribute. -/
theorem no_early_match (v tail : Bytes) (hv : v ≠ []) (hq : (34 : Byte) ∉ v) :
    xmlnsAttr.isPrefixOf (v ++ (xmlnsAttr ++ tail)) = false := by
  have hP : xmlnsAttr
      = 32 :: 120 :: 109 :: 108 :: 110 :: 115 :: 61 :: 34 :: xmlnsAttr.drop 8 := by decide
  rw [hP]
  rcases v with _ | ⟨c1, _ | ⟨c2, _ | ⟨c3, _ | ⟨c4, _ | ⟨c5, _ | ⟨c6, _ | ⟨c7, _ | ⟨c8, v⟩⟩⟩⟩⟩⟩⟩⟩
  · exact absurd rfl hv
  all_goals simp only [List.mem_cons, not_or] at hq
  all_goals simp [List.isPrefixOf]
  all_goals try (intros; simp_all)

/-- Bytes without a double quote, then an instance of the attribute: the bytes
are kept, the instance is dropped, the scan goes on behind it. -/
theorem deleteOccurrences_segment (u tail : Bytes) (hq : (34 : Byte) ∉ u) :
    deleteOccurrences xmlnsAttr 0 (u ++ (xmlnsAttr ++ tail))
      = u ++ deleteOccurrences xmlnsAttr 0 tail := by
  induction u with
  | nil =>
    rw [List.nil_append, List.nil_append,
      deleteOccurrences_match xmlnsAttr _ xmlnsAttr_ne_nil
        (List.isPrefixOf_iff_prefix.mpr (List.prefix_append _ _)),
      List.drop_left]
  | cons c u ih =>
    have hq' : (34 : Byte) ∉ u := fun h => hq (List.mem_cons_of_mem _ h)
    have hno := no_early_match (c :: u) tail (List.cons_ne_nil _ _) hq
    rw [List.cons_append] at hno ⊢
    rw [deleteOccurrences_keep _ _ _ hno, ih hq', List.cons_append]

/-- Pieces without a double quote, an instance of the attribute before each
piece but the first: what is left is the pieces. -/
theorem deleteOccurrences_pieces (rest : List Bytes) :
    ∀ first : Bytes, (∀ u ∈ first :: rest, (34 : Byte) ∉ u) →
      deleteOccurrences xmlnsAttr 0 (first ++ rest.flatMap fun u => xmlnsAttr ++ u)
        = first ++ rest.flatten := by
  induction rest with
  | nil =>
    intro first hq
    simp only [List.flatMap_nil, List.append_nil, List.flatten_nil]
    exact deleteOccurrences_of_not_infix _ _
      (not_infix_of_quote_free first (hq first (List.mem_cons_self _ _)))
  | cons u us ih =>
    intro first hq
    have hfirst : (34 : Byte) ∉ first := hq first (List.mem_cons_self _ _)
    have hrest : ∀ x ∈ u :: us, (34 : Byte) ∉ x := fun x hx => hq x (List.mem_cons_of_mem _ hx)
    rw [List.flatMap_cons, List.append_assoc, deleteOccurrences_segment first _ hfirst,
      ih u hrest, List.flatten_cons]

/-- A `DeleteObjects` request whose body is made of pieces without a double
quote, with an instance of the attribute before each piece but the first: the
body the Build handler leaves is the pieces alone; it contains no instance of
the attribute, and running the handler a second time changes nothing. -/
theorem buildHandler_pieces {π : Type} (r : Request π) (first : Bytes)
    (rest : List Bytes)
    (hname : r.Operation.Name = "DeleteObjects")
    (hbody : r.Body = first ++ rest.flatMap fun u => xmlnsAttr ++ u)
    (hquote : ∀ u ∈ first :: rest, (34 : Byte) ∉ u) :
    (buildHandler r).Body = first ++ rest.flatten ∧
    ¬ xmlnsAttr <:+: (buildHandler r).Body ∧
    buildHandler (buildHandler r) = buildHandler r := by
  have hout : (buildHandler r).Body = first ++ rest.flatten := by
    rw [buildHandler_Body r hname, hbody]
    exact deleteOccurrences_pieces rest first hquote
  have hfree : (34 : Byte) ∉ first ++ rest.flatten := by
    intro hmem
    rcases List.mem_append.mp hmem with h | h
    · exact hquote first (List.mem_cons_self _ _) h
    · obtain ⟨u, hu, hin⟩ := List.mem_flatten.mp h
      exact hquote u (List.mem_cons_of_mem _ hu) hin
  have hnone : ¬ xmlnsAttr <:+: (buildHandler r).Body := by
    rw [hout]
    exact not_infix_of_quote_free _ hfree
  refine ⟨hout, hnone, ?_⟩
  have hname' : (buildHandler r).Operation.Name = "DeleteObjects" := by
    rw [buildHandler_Body r hname]
    exact hname
  rw [buildHandler_Body (buildHandler r) hname', deleteOccurrences_of_not_infix _ _ hnone]

/-- The escaping of a byte has no double quote in it. -/
theorem quote_not_mem_escapeByte (c : Byte) : (34 : Byte) ∉ escapeByte c := by
  unfold escapeByte
  split_ifs with h1 h2 h3 h4 h5 h6 h7 h8
  · decide
  · decide
  · decide
  · decide
  · decide
  · decide
  · decide
  · decide
  · intro h
    exact h1 (List.mem_singleton.mp h).symm

/-- Escaped text has no double quote in it. -/
theorem quote_not_mem_escapeText (s : String) : (34 : Byte) ∉ escapeText s := by
  intro h
  obtain ⟨c, _, hc⟩ := List.mem_flatMap.mp h
  exact quote_not_mem_escapeByte c hc

/-- A serialised `Object` element has no double quote in it. -/
theorem quote_not_mem_objectElement (o : ObjectID) : (34 : Byte) ∉ objectElement o := by
  have h1 : (34 : Byte) ∉ toBytes "<Object>" := by decide
  have h2 : (34 : Byte) ∉ toBytes "</Object>" := by decide
  have h3 : (34 : Byte) ∉ toBytes "<Key>" := by decide
  have h4 : (34 : Byte) ∉ toBytes "</Key>" := by decide
  have h5 : (34 : Byte) ∉ toBytes "<VersionId>" := by decide
  have h6 : (34 : Byte) ∉ toBytes "</VersionId>" := by decide
  have hk : (34 : Byte) ∉ (match o.Key with
      | some k => toBytes "<Key>" ++ escapeText k ++ toBytes "</Key>"
      | none => []) := by
    cases o.Key with
    | none => simp
    | some k => simp [List.mem_append, h3, h4, quote_not_mem_escapeText]
  have hv : (34 : Byte) ∉ (match o.VersionId with
      | some v => toBytes "<VersionId>" ++ escapeText v ++ toBytes "</VersionId>"
      | none => []) := by
    cases o.VersionId with
    | none => simp
    | some v => simp [List.mem_append, h5, h6, quote_not_mem_escapeText]
  intro h
  simp only [objectElement, List.mem_append] at h
  rcases h with ((h | h) | h) | h
  · exact h1 h
  · exact hk h
  · exact hv h
  · exact h2 h

/-- What follows the attribute in a serialised body has no double quote in it. -/
theorem quote_not_mem_deleteElements (input : DeleteObjectsInput) :
    (34 : Byte) ∉ deleteElements input := by
  have h1 : (34 : Byte) ∉ toBytes ">" := by decide
  have h2 : (34 : Byte) ∉ toBytes "</Delete>" := by decide
  intro h
  simp only [deleteElements, List.mem_append] at h
  rcases h with (h | h) | h
  · exact h1 h
  · obtain ⟨o, _, ho⟩ := List.mem_flatMap.mp h
    exact quote_not_mem_objectElement o ho
  · exact h2 h

/-- C7: for every `DeleteObjects` request `DeleteFiles` makes (any client, any
identifiers, keys with any characters), the body that is sent after the Build
handler ran, which is the body the SDK serialised without its namespace
attribute, contains no occurrence of the attribute, and running the handler on
the request a second time changes nothing. -/
theorem buildHandler_strips_xmlns (ctx : S3Context σ) (ids : Option (List ObjectID))
    (w : World σ) :
    (ctx.DeleteFiles ids w).2.sent = w.sent ++ [Call.DeleteObjects (ctx.deleteRequest ids)] ∧
    (ctx.deleteRequest ids).Body
      = toBytes "<Delete" ++ deleteElements
          { Bucket := some ctx.config.S3Bucket, Delete := some { Objects := ids } } ∧
    ¬ xmlnsAttr <:+: (ctx.deleteRequest ids).Body ∧
    buildHandler (ctx.deleteRequest ids) = ctx.deleteRequest ids := by
  have hfirst : (34 : Byte) ∉ toBytes "<Delete" := by decide
  have hp := buildHandler_pieces
    (Request.mk { Name := "DeleteObjects" }
      ({ Bucket := some ctx.config.S3Bucket, Delete := some { Objects := ids } } :
        DeleteObjectsInput)
      (deleteBody { Bucket := some ctx.config.S3Bucket, Delete := some { Objects := ids } }))
    (toBytes "<Delete")
    [deleteElements { Bucket := some ctx.config.S3Bucket, Delete := some { Objects := ids } }]
    rfl (by simp [deleteBody])
    (by
      intro u hu
      rcases List.mem_cons.mp hu with h | h
      · rw [h]; exact hfirst
      · rw [List.mem_singleton.mp h]; exact quote_not_mem_deleteElements _)
  refine ⟨?_, ?_, hp.2.1, hp.2.2⟩
  · rw [DeleteFiles_eq]
  · have h := hp.1
    simp only [List.flatten_cons, List.flatten_nil, List.append_nil] at h
    exact h

/-- The batch deletion of a key that spells the attribute itself: the quotes of
the key are escaped, the one attribute of the root element is dropped. -/
theorem buildHandler_strips_xmlns_witness :
    (sampleCtx.deleteRequest
        (some [{ Key := some " xmlns=\"http://s3.amazonaws.com/doc/2006-03-01/\"",
                 VersionId := none }])).Body
      = toBytes ("<Delete><Object><Key>"
          ++ " xmlns=&#34;http://s3.amazonaws.com/doc/2006-03-01/&#34;"
          ++ "</Key></Object></Delete>") :=
  ((buildHandler_strips_xmlns sampleCtx
      (some [{ Key := some " xmlns=\"http://s3.amazonaws.com/doc/2006-03-01/\"",
               VersionId := none }])
      (worldOf [])).2.1).trans (by decide)

end storage
